/-
Verification of the multi-agent conversation wiring in `my_agent`.

The embedding below follows the Python sources:
  * `my_agent/autogen_agent.py`   — run-log seeding, team construction constants
  * `my_agent/model_config.py`    — environment-derived configuration
  * `my_agent/sample_project/math_utils.py` — fibonacci / squares

Strings are embedded as `List Char`; Python `str.strip()` becomes `pyStrip`;
fallible Python code (raise) becomes `Except`.
-/
import Mathlib

namespace MyAgent

/-! ## Python string primitives -/

/-- Whitespace characters stripped by Python `str.strip()` (ASCII subset
actually exercised by the run log: space, tab, newline, carriage return,
vertical tab, form feed). -/
def isPySpace (c : Char) : Bool :=
  c = ' ' || c = '\t' || c = '\n' || c = '\r' || c = '\x0b' || c = '\x0c'

/-- Python `s.strip()`: remove leading and trailing whitespace. -/
def pyStrip (s : List Char) : List Char :=
  List.rdropWhile isPySpace (s.dropWhile isPySpace)

/-! ## Run-log seeding (`run` in `autogen_agent.py`, lines 176–190)

`run` reads the log file if it exists (`history = log_file.read_text().strip()`),
builds `full_task = f"{history}\n\n{task}" if history else task`, and after the
team finishes appends `f"{task}\n"` to the log. -/

/-- History text read back from the log: `none` models "no log file given" or
"log file does not exist"; otherwise the file content stripped of leading and
trailing whitespace (`log_file.read_text(encoding="utf-8").strip()`). -/
def readLog : Option (List Char) → List Char
  | none => []
  | some content => pyStrip content

/-- Blank-line separator `"\n\n"` used by `full_task = f"{history}\n\n{task}"`. -/
def blankSep : List Char := ['\n', '\n']

/-- Seeded initial task: `full_task = f"{history}\n\n{task}" if history else task`
(Python truthiness: the stripped history is falsy exactly when empty). -/
def seededTask (log : Option (List Char)) (task : List Char) : List Char :=
  let history := readLog log
  if history = [] then task else history ++ blankSep ++ task

/-- Log content after a completed run: the old content (empty when the file did
not yet exist) with `f"{task}\n"` appended (`f.write(f"{task}\n")` in append
mode). -/
def logAfterRun (log : Option (List Char)) (task : List Char) : List Char :=
  (log.getD []) ++ (task ++ ['\n'])

/-! ## Helper lemmas about `pyStrip` -/

theorem head?_dropWhile_false (p : Char → Bool) (l : List Char) (c : Char)
    (h : (l.dropWhile p).head? = some c) : p c = false := by
  induction l with
  | nil => simp [List.dropWhile] at h
  | cons a l ih =>
    rw [List.dropWhile_cons] at h
    by_cases hp : p a
    · rw [if_pos hp] at h; exact ih h
    · rw [if_neg hp] at h
      simp only [List.head?_cons, Option.some.injEq] at h
      rw [← h]
      simpa using hp

theorem pyStrip_head_not_space (s : List Char) (c : Char)
    (h : (pyStrip s).head? = some c) : isPySpace c = false := by
  have hp := List.rdropWhile_prefix (p := isPySpace) (l := s.dropWhile isPySpace)
  obtain ⟨t, ht⟩ := hp
  unfold pyStrip at h
  cases hne : List.rdropWhile isPySpace (s.dropWhile isPySpace) with
  | nil => rw [hne] at h; simp at h
  | cons a rest =>
    rw [hne] at h
    simp only [List.head?_cons, Option.some.injEq] at h
    rw [hne] at ht
    have hhead : (s.dropWhile isPySpace).head? = some c := by
      rw [← ht, ← h]; simp
    exact head?_dropWhile_false isPySpace s c hhead

theorem seededTask_of_nonempty (L task : List Char) (h : pyStrip L ≠ []) :
    seededTask (some L) task = pyStrip L ++ blankSep ++ task := by
  simp [seededTask, readLog, h]

/-! ## Claims about run-log seeding -/

/-- C2: the claimed round trip is wrong on the code.  Completing runs with
tasks "A" and "B" leaves the log `"A\nB\n"` (each task terminated by a single
newline); stripped and joined to task "C" this seeds `"A\nB\n\nC"`, not the
claimed `"A\n\nB\n\nC"`. -/
theorem c2_log_round_trip_counterexample :
    seededTask (some (logAfterRun (some (logAfterRun none "A".data)) "B".data)) "C".data
      ≠ "A\n\nB\n\nC".data := by decide

/-- C2 (amended): completing a run with task "A" and then a run with task "B"
against the same log file, then starting a run with task "C", yields a seeded
initial task text exactly equal to `"A\nB\n\nC"`: previous tasks accumulate in
the log separated by single newlines, and only the new task is joined to the
accumulated log by a blank-line separator. -/
theorem c2_log_round_trip :
    seededTask (some (logAfterRun (some (logAfterRun none "A".data)) "B".data)) "C".data
      = "A\nB\n\nC".data := by decide

/-- C3: for every task string and every log content whose stripped form (the
prior history read from the log file) is non-empty, `run` seeds the
conversation with the prior history, a blank-line separator `"\n\n"`, and the
task appended last; and after the run it persists the task string to the run
log terminated by a newline. -/
theorem c3_seed_and_persist (L task : List Char) (h : pyStrip L ≠ []) :
    seededTask (some L) task = pyStrip L ++ blankSep ++ task ∧
    logAfterRun (some L) task = L ++ (task ++ ['\n']) :=
  ⟨seededTask_of_nonempty L task h, rfl⟩

theorem c3_seed_and_persist_witness :
    seededTask (some "A\n".data) "B".data = pyStrip "A\n".data ++ blankSep ++ "B".data ∧
    logAfterRun (some "A\n".data) "B".data = "A\n".data ++ ("B".data ++ ['\n']) :=
  c3_seed_and_persist "A\n".data "B".data (by decide)

/-- C9: if no log file is given or it does not exist (`none`), or its content
is whitespace only (stripped form empty), the seeded task is exactly the task
argument; when the stripped log content is non-empty, the seeded text starts
with its first character, which is never whitespace. -/
theorem c9_seeding_edge_cases (s task : List Char) :
    seededTask none task = task ∧
    (pyStrip s = [] → seededTask (some s) task = task) ∧
    (pyStrip s ≠ [] → ∀ c, (seededTask (some s) task).head? = some c →
      isPySpace c = false) := by
  refine ⟨rfl, ?_, ?_⟩
  · intro h; simp [seededTask, readLog, h]
  · intro h c hc
    rw [seededTask_of_nonempty s task h] at hc
    cases hps : pyStrip s with
    | nil => exact absurd hps h
    | cons a rest =>
      rw [hps] at hc
      simp only [List.cons_append, List.head?_cons, Option.some.injEq] at hc
      rw [← hc]
      exact pyStrip_head_not_space s a (by rw [hps]; simp)

theorem c9_seeding_edge_cases_witness :
    seededTask none "x".data = "x".data ∧
    seededTask (some " \n ".data) "x".data = "x".data ∧
    isPySpace 'A' = false :=
  ⟨(c9_seeding_edge_cases [] "x".data).1,
   (c9_seeding_edge_cases " \n ".data "x".data).2.1 (by decide),
   (c9_seeding_edge_cases " A ".data "x".data).2.2 (by decide) 'A' (by decide)⟩

/-! ## Environment-derived configuration
(`_create_model_client` in `autogen_agent.py`, lines 96–107, and
`OpenAIConfig.from_env` in `model_config.py`). -/

/-- Python `os.environ.get(key, default)`: the environment is a partial map
from variable names to values. -/
def envGet (env : List Char → Option (List Char)) (key dflt : List Char) : List Char :=
  (env key).getD dflt

structure ModelClientConfig where
  model : List Char
  baseUrl : List Char
  apiKey : List Char
deriving DecidableEq

/-- Error taxonomy entry from the spec (§7); the source never constructs it. -/
inductive ConfigurationError
  | missingValue (name : List Char)
deriving DecidableEq

/-- Configuration assembled by `_create_model_client`: each value is read from
the environment with a hard-coded default (`OPENAI_MODEL` → "DeepSeek-R1",
`OPENAI_BASE_URL` → the deepseek URL, `OPENAI_API_KEY` → empty string). -/
def modelClientConfig (env : List Char → Option (List Char)) : ModelClientConfig :=
  { model := envGet env "OPENAI_MODEL".data "DeepSeek-R1".data
    baseUrl := envGet env "OPENAI_BASE_URL".data "https://corellm.wb.ru/deepseek/v1".data
    apiKey := envGet env "OPENAI_API_KEY".data "".data }

/-- The body of `_create_model_client` as a fallible computation: it only ever
constructs the client from `modelClientConfig`; no validation is performed and
no configuration error can be raised. -/
def createModelClient (env : List Char → Option (List Char)) :
    Except ConfigurationError ModelClientConfig :=
  Except.ok (modelClientConfig env)

structure OpenAIConfig where
  model : List Char
  baseUrl : List Char
  apiKey : List Char
deriving DecidableEq

/-- The `OpenAIConfig.from_env` classmethod in `model_config.py`: frozen
dataclass built from `CODE_MODEL` / `CODE_BASE_URL` / `CODE_API_KEY` with
defaults "openai/Devstral" / "tmp" / "tmp". -/
def OpenAIConfig.fromEnv (env : List Char → Option (List Char)) : OpenAIConfig :=
  { model := envGet env "CODE_MODEL".data "openai/Devstral".data
    baseUrl := envGet env "CODE_BASE_URL".data "tmp".data
    apiKey := envGet env "CODE_API_KEY".data "tmp".data }

/-- Environment with every variable missing. -/
def emptyEnv : List Char → Option (List Char) := fun _ => none

/-- C8: the claim fails on the code.  With every configuration variable
missing (including the credential), `_create_model_client` succeeds with the
hard-coded defaults — the credential silently defaults to the empty string —
instead of failing fast with a `ConfigurationError`. -/
theorem c8_no_fail_fast_counterexample :
    createModelClient emptyEnv =
      Except.ok ⟨"DeepSeek-R1".data, "https://corellm.wb.ru/deepseek/v1".data, []⟩ ∧
    (createModelClient emptyEnv).isOk = true := by
  constructor
  · rfl
  · rfl

/-- C8 (amended): configuration is read through `os.environ.get` once at
construction; a missing variable is replaced by its hard-coded default (the
API key default being the empty string) and never causes a failure: client
construction succeeds for every environment.  Likewise `OpenAIConfig.from_env`
substitutes its defaults for missing variables. -/
theorem c8_config_defaults (env : List Char → Option (List Char)) :
    (createModelClient env).isOk = true ∧
    createModelClient env = Except.ok (modelClientConfig env) ∧
    (env "OPENAI_MODEL".data = none → (modelClientConfig env).model = "DeepSeek-R1".data) ∧
    (env "OPENAI_API_KEY".data = none → (modelClientConfig env).apiKey = []) ∧
    (∀ v, env "OPENAI_API_KEY".data = some v → (modelClientConfig env).apiKey = v) ∧
    (env "CODE_MODEL".data = none → (OpenAIConfig.fromEnv env).model = "openai/Devstral".data) := by
  refine ⟨rfl, rfl, ?_, ?_, ?_, ?_⟩
  · intro h; simp [modelClientConfig, envGet, h]
  · intro h; simp [modelClientConfig, envGet, h]
  · intro v h; simp [modelClientConfig, envGet, h]
  · intro h; simp [OpenAIConfig.fromEnv, envGet, h]

theorem c8_config_defaults_witness :
    (createModelClient emptyEnv).isOk = true ∧
    (modelClientConfig emptyEnv).model = "DeepSeek-R1".data ∧
    (modelClientConfig emptyEnv).apiKey = [] :=
  ⟨(c8_config_defaults emptyEnv).1,
   (c8_config_defaults emptyEnv).2.2.1 rfl,
   (c8_config_defaults emptyEnv).2.2.2.1 rfl⟩

/-! ## Sample project math utilities
(`sample_project/math_utils.py`). -/

/-- Message of the `ValueError` raised for negative input. -/
def valueErrorMsg : List Char := "n must be non-negative".data

/-- Accumulation loop of `fibonacci`: `seq.append(a); a, b = b, a + b`,
executed `n` times. -/
def fibLoop : Nat → Int → Int → List Int
  | 0, _, _ => []
  | k + 1, a, b => a :: fibLoop k b (a + b)

/-- `fibonacci(n)`: raises `ValueError` for `n < 0`, else the first `n`
Fibonacci numbers starting `0, 1`. -/
def fibonacci (n : Int) : Except (List Char) (List Int) :=
  if n < 0 then Except.error valueErrorMsg
  else Except.ok (fibLoop n.toNat 0 1)

/-- `squares(n)`: raises `ValueError` for `n < 0`, else `[i * i for i in range(n)]`. -/
def squares (n : Int) : Except (List Char) (List Int) :=
  if n < 0 then Except.error valueErrorMsg
  else Except.ok ((List.range n.toNat).map (fun (i : Nat) => (i : Int) * i))

theorem fibLoop_eq_map (k : Nat) : ∀ m : Nat,
    fibLoop k (Nat.fib m) (Nat.fib (m + 1)) =
      (List.range k).map (fun i => (Nat.fib (m + i) : Int)) := by
  induction k with
  | zero => intro m; simp [fibLoop]
  | succ k ih =>
    intro m
    have hb : (Nat.fib m : Int) + (Nat.fib (m + 1) : Int) = (Nat.fib (m + 1 + 1) : Int) := by
      rw [show m + 1 + 1 = m + 2 from rfl, Nat.fib_add_two]
      push_cast
      ring
    calc fibLoop (k + 1) (Nat.fib m) (Nat.fib (m + 1))
        = (Nat.fib m : Int) ::
            fibLoop k (Nat.fib (m + 1)) ((Nat.fib m : Int) + (Nat.fib (m + 1) : Int)) := rfl
      _ = (Nat.fib m : Int) :: fibLoop k (Nat.fib (m + 1)) (Nat.fib (m + 1 + 1)) := by
            rw [hb]
      _ = (Nat.fib m : Int) :: (List.range k).map (fun i => (Nat.fib (m + 1 + i) : Int)) := by
            rw [ih (m + 1)]
      _ = (List.range (k + 1)).map (fun i => (Nat.fib (m + i) : Int)) := by
            rw [List.range_succ_eq_map, List.map_cons, List.map_map]
            refine congrArg₂ List.cons (by simp) ?_
            refine List.map_congr_left ?_
            intro a _
            exact congrArg (fun t => (Nat.fib t : Int)) (by omega)

/-- C10: `fibonacci` and `squares` raise `ValueError` exactly for negative
input; for `n ≥ 0`, `fibonacci n` is the list of the first `n` Fibonacci
numbers (starting `0, 1`, each subsequent one the sum of the previous two,
i.e. `Nat.fib`) and `squares n` is `[0 * 0, …, (n-1) * (n-1)]`, both of
length `n`. -/
theorem c10_fibonacci_squares (n : Int) :
    (n < 0 → fibonacci n = Except.error valueErrorMsg ∧
      squares n = Except.error valueErrorMsg) ∧
    (0 ≤ n → fibonacci n =
      Except.ok ((List.range n.toNat).map (fun i => (Nat.fib i : Int)))) ∧
    (0 ≤ n → squares n =
      Except.ok ((List.range n.toNat).map (fun (i : Nat) => (i : Int) * i))) ∧
    (∀ l, fibonacci n = Except.ok l → l.length = n.toNat) ∧
    (∀ l, squares n = Except.ok l → l.length = n.toNat) := by
  by_cases hn : n < 0
  · refine ⟨fun _ => ⟨by simp [fibonacci, hn], by simp [squares, hn]⟩,
      fun h => absurd h (by omega), fun h => absurd h (by omega), ?_, ?_⟩
    · intro l hl; simp [fibonacci, hn] at hl
    · intro l hl; simp [squares, hn] at hl
  · have hfib : fibonacci n =
        Except.ok ((List.range n.toNat).map (fun i => (Nat.fib i : Int))) := by
      have h0 : (0 : Int) = (Nat.fib 0 : Int) := by simp
      have h1 : (1 : Int) = (Nat.fib 1 : Int) := by simp
      rw [fibonacci, if_neg hn, h0, h1, fibLoop_eq_map]
      simp
    refine ⟨fun h => absurd h hn, fun _ => hfib,
      fun _ => by rw [squares, if_neg hn], ?_, ?_⟩
    · intro l hl
      rw [hfib] at hl
      simp only [Except.ok.injEq] at hl
      rw [← hl, List.length_map, List.length_range]
    · intro l hl
      rw [squares, if_neg hn] at hl
      simp only [Except.ok.injEq] at hl
      rw [← hl, List.length_map, List.length_range]

theorem c10_fibonacci_squares_witness :
    fibonacci (-1) = Except.error valueErrorMsg ∧
    fibonacci 5 = Except.ok ((List.range (5 : Int).toNat).map (fun i => (Nat.fib i : Int))) ∧
    (List.range (5 : Int).toNat).map (fun i => (Nat.fib i : Int)) = [0, 1, 1, 2, 3] ∧
    squares 5 = Except.ok ((List.range (5 : Int).toNat).map (fun (i : Nat) => (i : Int) * i)) ∧
    (List.range (5 : Int).toNat).map (fun (i : Nat) => (i : Int) * i) = [0, 1, 4, 9, 16] :=
  ⟨((c10_fibonacci_squares (-1)).1 (by decide)).1,
   (c10_fibonacci_squares 5).2.1 (by decide),
   by decide,
   (c10_fibonacci_squares 5).2.2.1 (by decide),
   by decide⟩

/-! ## Termination policy

The policy itself is `TextMentionTermination("TERMINATE")` from the external
autogen library (`autogen_agent.py` line 157); only its construction is in
`src/`, so the predicate is modelled from the spec (§4.2). -/

/-- Message record of the conversation history (spec §3). -/
structure Message where
  speaker : List Char
  content : List Char
deriving DecidableEq

/-- Sentinel token passed to `TextMentionTermination` in `build_team`. -/
def sentinel : List Char := "TERMINATE".data

/-- Case-sensitive check that `content` starts with `token`. -/
def startsWithTok : List Char → List Char → Bool
  | _, [] => true
  | [], _ :: _ => false
  | c :: cs, t :: ts => c = t && startsWithTok cs ts

/-- Case-sensitive substring check: does `token` occur anywhere in `content`? -/
def containsSub : List Char → List Char → Bool
  | [], token => token.isEmpty
  | c :: rest, token => startsWithTok (c :: rest) token || containsSub rest token

/-- Modelled from the spec: the default termination policy `should_stop`
(§4.2) — true iff the most recent message's content contains the sentinel
token, case-sensitive, anywhere in the text; an empty history never
terminates.  The executable predicate lives in the external autogen library
(`TextMentionTermination`), not under `src/`. -/
def shouldStop (history : List Message) : Bool :=
  match history.getLast? with
  | none => false
  | some m => containsSub m.content sentinel

theorem startsWithTok_iff (token : List Char) : ∀ content : List Char,
    startsWithTok content token = true ↔ ∃ s, content = token ++ s := by
  induction token with
  | nil =>
    intro content
    constructor
    · intro _; exact ⟨content, rfl⟩
    · intro _
      cases content with
      | nil => rfl
      | cons c cs => rfl
  | cons t ts ih =>
    intro content
    cases content with
    | nil =>
      simp only [startsWithTok]
      constructor
      · intro h; exact absurd h (by simp)
      · rintro ⟨s, hs⟩; simp at hs
    | cons c cs =>
      simp only [startsWithTok, Bool.and_eq_true, decide_eq_true_eq, ih cs]
      constructor
      · rintro ⟨hc, s, hs⟩
        exact ⟨s, by simp [hc, hs]⟩
      · rintro ⟨s, hs⟩
        simp only [List.cons_append, List.cons.injEq] at hs
        exact ⟨hs.1, s, hs.2⟩

theorem containsSub_iff (token : List Char) : ∀ content : List Char,
    containsSub content token = true ↔ ∃ p s, content = p ++ token ++ s := by
  intro content
  induction content with
  | nil =>
    simp only [containsSub, List.isEmpty_iff]
    constructor
    · intro h; exact ⟨[], [], by simp [h]⟩
    · rintro ⟨p, s, hs⟩
      rcases List.append_eq_nil.mp hs.symm with ⟨hp, hts⟩
      exact (List.append_eq_nil.mp hp).2
  | cons c rest ih =>
    simp only [containsSub, Bool.or_eq_true, startsWithTok_iff token, ih]
    constructor
    · rintro (⟨s, hs⟩ | ⟨p, s, hs⟩)
      · exact ⟨[], s, by simp [hs]⟩
      · exact ⟨c :: p, s, by simp [hs]⟩
    · rintro ⟨p, s, hs⟩
      cases p with
      | nil => exact Or.inl ⟨s, by simpa using hs⟩
      | cons q qs =>
        simp only [List.cons_append, List.cons.injEq] at hs
        exact Or.inr ⟨qs, s, hs.2⟩

/-- C1: `should_stop` returns true iff the history is non-empty and the
content of its last message contains the sentinel token `"TERMINATE"` as a
case-sensitive substring anywhere in the text; in particular it returns false
for the empty history (and hence for any history whose last message lacks the
token, by the iff). -/
theorem c1_should_stop_iff (H : List Message) :
    (shouldStop H = true ↔
      ∃ m, H.getLast? = some m ∧ ∃ p s, m.content = p ++ sentinel ++ s) ∧
    shouldStop [] = false := by
  refine ⟨?_, rfl⟩
  unfold shouldStop
  cases hL : H.getLast? with
  | none => simp
  | some m => simp [containsSub_iff]

theorem c1_should_stop_iff_witness :
    shouldStop [⟨"verification_assistant".data, "looks good TERMINATE".data⟩] = true ∧
    shouldStop [] = false :=
  ⟨(c1_should_stop_iff [⟨"verification_assistant".data, "looks good TERMINATE".data⟩]).1.mpr
      ⟨⟨"verification_assistant".data, "looks good TERMINATE".data⟩, rfl,
        "looks good ".data, [], by decide⟩,
   (c1_should_stop_iff []).2⟩

/-! ## Content-driven selector retry and fallback

The retry logic lives in the external autogen library; `build_team` only
passes `selector_prompt` and `max_selector_attempts=3` (`autogen_agent.py`
lines 158–164), so the selector is modelled from the spec (§4.3). -/

/-- Attempt budget passed as `max_selector_attempts=3` in `build_team`. -/
def maxSelectorAttempts : Nat := 3

/-- Modelled from the spec: one selection round of the content-driven selector
(§4.3).  `backend i` is the parsed id returned by the decision backend on
attempt `i` (`none` = unparseable reply); a reply is accepted only if it names
a roster member; on exhausting the budget the deterministic `fallback` id is
returned.  The second component counts the backend consultations made. -/
def selectLoop (backend : Nat → Option (List Char)) (roster : List (List Char))
    (fallback : List Char) : Nat → Nat → List Char × Nat
  | _, 0 => (fallback, 0)
  | i, k + 1 =>
    match backend i with
    | some r =>
      if roster.contains r then (r, 1)
      else
        let p := selectLoop backend roster fallback (i + 1) k
        (p.1, p.2 + 1)
    | none =>
      let p := selectLoop backend roster fallback (i + 1) k
      (p.1, p.2 + 1)

/-- Modelled from the spec: the selector's entry point, with the attempt
budget fixed to `max_selector_attempts = 3` as configured by `build_team`. -/
def selectSpeaker (backend : Nat → Option (List Char)) (roster : List (List Char))
    (fallback : List Char) : List Char × Nat :=
  selectLoop backend roster fallback 0 maxSelectorAttempts

theorem selectLoop_all_invalid (backend : Nat → Option (List Char))
    (roster : List (List Char)) (fallback : List Char)
    (hbad : ∀ i r, backend i = some r → roster.contains r = false) :
    ∀ k i, selectLoop backend roster fallback i k = (fallback, k) := by
  intro k
  induction k with
  | zero => intro i; rfl
  | succ k ih =>
    intro i
    cases hb : backend i with
    | none => simp [selectLoop, hb, ih (i + 1)]
    | some r =>
      have hco : roster.contains r = false := hbad i r hb
      have hnot : ¬ (roster.contains r = true) := by rw [hco]; simp
      simp only [selectLoop, hb]
      rw [if_neg hnot]
      simp [ih (i + 1)]

/-- C4: if the backend returns an id not in the roster (or an unparseable
reply) on every attempt, the selector returns the deterministic fallback id
after exactly 3 failed attempts; it is a total function, so the run does not
fail with an exception. -/
theorem c4_selector_fallback (backend : Nat → Option (List Char))
    (roster : List (List Char)) (fallback : List Char)
    (hbad : ∀ i r, backend i = some r → roster.contains r = false) :
    selectSpeaker backend roster fallback = (fallback, 3) := by
  unfold selectSpeaker
  exact selectLoop_all_invalid backend roster fallback hbad maxSelectorAttempts 0

theorem c4_selector_fallback_witness :
    selectSpeaker (fun _ => some "bogus".data)
        ["test_writing_assistant".data, "verification_assistant".data,
          "summary_agent".data]
        "test_writing_assistant".data
      = ("test_writing_assistant".data, 3) :=
  c4_selector_fallback _ _ _ (fun i r h => by
    have h2 : some "bogus".data = some r := h
    rw [← Option.some.inj h2]
    decide)

/-! ## Fixed round-robin selector

`RoundRobinGroupChat` (autogen library) does the cycling; `build_team` only
assembles the three-member team (`autogen_agent.py` lines 158–164), so the
cursor mechanics are modelled from the spec (§4.3), with the repeated-speaker
restriction disabled. -/

/-- Modelled from the spec: one round-robin selection — return the participant
at the cursor and advance the cursor by one modulo the team size, wrapping to
0 after the last participant. -/
def rrSelect (team : List (List Char)) (cursor : Nat) : List Char × Nat :=
  (team.getD cursor [], (cursor + 1) % team.length)

/-- Modelled from the spec: `k` consecutive round-robin selections from a
cursor, ignoring message content; returns the selected ids in order and the
final cursor. -/
def rrRun (team : List (List Char)) : Nat → Nat → List (List Char) × Nat
  | c, 0 => ([], c)
  | c, k + 1 =>
    let sel := rrSelect team c
    let rest := rrRun team sel.2 k
    (sel.1 :: rest.1, rest.2)

theorem count_one_of_nodup (x : List Char) : ∀ l : List (List Char),
    l.Nodup → x ∈ l → List.count x l = 1 := by
  intro l
  induction l with
  | nil => intro _ h; simp at h
  | cons a l ih =>
    intro hnd hx
    rw [List.count_cons]
    rcases List.mem_cons.mp hx with h | h
    · subst h
      have hx0 : x ∉ l := (List.nodup_cons.mp hnd).1
      have hc0 : List.count x l = 0 := List.count_eq_zero.mpr hx0
      simp [hc0]
    · have hne2 : x ≠ a := by
        rintro rfl; exact (List.nodup_cons.mp hnd).1 h
      have hct := ih (List.nodup_cons.mp hnd).2 h
      simp [hct, hne2, Ne.symm hne2]

theorem rrRun_cycle (team : List (List Char)) :
    ∀ k c, c + k = team.length → c < team.length →
      rrRun team c k = (team.drop c, 0) := by
  intro k
  induction k with
  | zero => intro c hck hc; omega
  | succ k ih =>
    intro c hck hc
    have hgd : team.getD c [] = team[c] := List.getD_eq_getElem team [] hc
    by_cases hc1 : c + 1 < team.length
    · have hmod : (c + 1) % team.length = c + 1 := Nat.mod_eq_of_lt hc1
      have hrec := ih (c + 1) (by omega) hc1
      simp only [rrRun, rrSelect, hmod, hrec, hgd]
      rw [List.drop_eq_getElem_cons hc]
    · have hce : c + 1 = team.length := by omega
      have hk : k = 0 := by omega
      subst hk
      have hmod : (c + 1) % team.length = 0 := by rw [hce]; exact Nat.mod_self _
      simp only [rrRun, rrSelect, hmod, hgd]
      rw [List.drop_eq_getElem_cons hc]
      rw [hce, List.drop_length]

theorem rrRun_add (team : List (List Char)) :
    ∀ j k c, rrRun team c (j + k) =
      ((rrRun team c j).1 ++ (rrRun team (rrRun team c j).2 k).1,
        (rrRun team (rrRun team c j).2 k).2) := by
  intro j
  induction j with
  | zero => intro k c; simp [rrRun, Nat.zero_add]
  | succ j ih =>
    intro k c
    have harr : j + 1 + k = (j + k) + 1 := by omega
    rw [harr]
    simp only [rrRun]
    rw [ih k (rrSelect team c).2]
    simp

/-- C5: with the repeated-speaker restriction disabled, the round-robin
selector over a non-empty team of N participants is periodic with period N:
2N consecutive select calls (ignoring content) yield the team twice over in
the original order (each id exactly twice when ids are distinct), the cursor
returns to 0, and the cursor wraps to 0 right after the last participant. -/
theorem c5_round_robin_period (team : List (List Char)) (hne : team ≠ []) :
    (rrRun team 0 (2 * team.length)).1 = team ++ team ∧
    (rrRun team 0 (2 * team.length)).2 = 0 ∧
    (team.Nodup → ∀ x ∈ team, (rrRun team 0 (2 * team.length)).1.count x = 2) ∧
    (rrSelect team (team.length - 1)).2 = 0 := by
  have hL : 0 < team.length := List.length_pos.mpr hne
  have h1 : rrRun team 0 team.length = (team, 0) := by
    have := rrRun_cycle team team.length 0 (by omega) hL
    simpa using this
  have h2 : rrRun team 0 (2 * team.length) = (team ++ team, 0) := by
    rw [two_mul, rrRun_add team team.length team.length 0, h1]
    simp [h1]
  refine ⟨by rw [h2], by rw [h2], ?_, ?_⟩
  · intro hnd x hx
    rw [h2, List.count_append]
    have h3 : List.count x team = 1 := count_one_of_nodup x team hnd hx
    omega
  · show (team.getD (team.length - 1) [], (team.length - 1 + 1) % team.length).2 = 0
    simp only
    rw [Nat.sub_add_cancel hL, Nat.mod_self]

theorem c5_round_robin_period_witness :
    (rrRun ["w".data, "v".data, "s".data] 0 6).1 =
      ["w".data, "v".data, "s".data, "w".data, "v".data, "s".data] ∧
    (rrRun ["w".data, "v".data, "s".data] 0 6).2 = 0 := by
  have h := c5_round_robin_period ["w".data, "v".data, "s".data] (by decide)
  exact ⟨h.1, h.2.1⟩

/-! ## Conversation loop state machine

The loop (`select → act → append → check-termination`) runs inside the
external autogen library (`team.run_stream`); `src/` only builds the team and
calls it, so the machine is modelled from the spec (§4.3 state machine,
states `INIT → SELECTING → ACTING → CHECKING → (SELECTING | TERMINATED |
FAILED)`). -/

/-- Phases of the conversation loop (spec §4.3); `acting` carries the single
selected speaker, `failed` carries the triggering error. -/
inductive Phase
  | selecting
  | acting (speaker : List Char)
  | checking
  | terminated
  | failed (err : List Char)
deriving DecidableEq

/-- Modelled from the spec: the loop's mutable state — current phase, the
append-only history, and the number of completed turns. -/
structure LoopState where
  phase : Phase
  history : List Message
  turns : Nat
deriving DecidableEq

/-- Synthetic first message carrying the initial task (spec §4.3 `INIT`). -/
def seedMsg (task : List Char) : Message := ⟨"user".data, task⟩

/-- Modelled from the spec: `INIT` seeds the history with the task as the
first message and enters `SELECTING`. -/
def initState (task : List Char) : LoopState :=
  ⟨Phase.selecting, [seedMsg task], 0⟩

/-- Modelled from the spec: one transition of the loop.  `sel` is the turn
selector, `act sp h` the chosen participant's action on the history (failing
with a `ParticipantError` payload), `stop` the termination policy. -/
inductive LoopStep (sel : List Message → List Char)
    (act : List Char → List Message → Except (List Char) Message)
    (stop : List Message → Bool) : LoopState → LoopState → Prop
  | select (h : List Message) (t : Nat) :
      LoopStep sel act stop ⟨Phase.selecting, h, t⟩ ⟨Phase.acting (sel h), h, t⟩
  | actOk (sp : List Char) (h : List Message) (t : Nat) (m : Message)
      (hm : act sp h = Except.ok m) :
      LoopStep sel act stop ⟨Phase.acting sp, h, t⟩ ⟨Phase.checking, h ++ [m], t + 1⟩
  | actErr (sp : List Char) (h : List Message) (t : Nat) (e : List Char)
      (he : act sp h = Except.error e) :
      LoopStep sel act stop ⟨Phase.acting sp, h, t⟩ ⟨Phase.failed e, h, t⟩
  | checkStop (h : List Message) (t : Nat) (hs : stop h = true) :
      LoopStep sel act stop ⟨Phase.checking, h, t⟩ ⟨Phase.terminated, h, t⟩
  | checkGo (h : List Message) (t : Nat) (hs : stop h = false) :
      LoopStep sel act stop ⟨Phase.checking, h, t⟩ ⟨Phase.selecting, h, t⟩

/-- States reachable from `INIT` for a given task. -/
def Reachable (sel : List Message → List Char)
    (act : List Char → List Message → Except (List Char) Message)
    (stop : List Message → Bool) (task : List Char) (s : LoopState) : Prop :=
  Relation.ReflTransGen (LoopStep sel act stop) (initState task) s

theorem no_step_of_terminal (sel : List Message → List Char)
    (act : List Char → List Message → Except (List Char) Message)
    (stop : List Message → Bool) (s s2 : LoopState)
    (hterm : s.phase = Phase.terminated ∨ ∃ e, s.phase = Phase.failed e)
    (hstep : LoopStep sel act stop s s2) : False := by
  cases hstep <;> rcases hterm with h | ⟨e, h⟩ <;> simp at h

theorem step_one_turn (sel : List Message → List Char)
    (act : List Char → List Message → Except (List Char) Message)
    (stop : List Message → Bool) (s s2 : LoopState)
    (hstep : LoopStep sel act stop s s2) :
    (s2.history = s.history ∧ s2.turns = s.turns) ∨
    (∃ sp m, s.phase = Phase.acting sp ∧ act sp s.history = Except.ok m ∧
      s2.history = s.history ++ [m] ∧ s2.turns = s.turns + 1) := by
  cases hstep with
  | select h t => exact Or.inl ⟨rfl, rfl⟩
  | actOk sp h t m hm => exact Or.inr ⟨sp, m, rfl, hm, rfl, rfl⟩
  | actErr sp h t e he => exact Or.inl ⟨rfl, rfl⟩
  | checkStop h t hs => exact Or.inl ⟨rfl, rfl⟩
  | checkGo h t hs => exact Or.inl ⟨rfl, rfl⟩

theorem reachable_inv (sel : List Message → List Char)
    (act : List Char → List Message → Except (List Char) Message)
    (stop : List Message → Bool) (task : List Char) (s : LoopState)
    (hr : Reachable sel act stop task s) :
    s.history.length = s.turns + 1 ∧
    (s.phase = Phase.terminated → stop s.history = true) ∧
    (∀ e, s.phase = Phase.failed e → ∃ sp, act sp s.history = Except.error e) := by
  induction hr with
  | refl =>
    refine ⟨rfl, ?_, ?_⟩
    · intro hh; simp [initState] at hh
    · intro e hh; simp [initState] at hh
  | tail hab hbc ih =>
    obtain ⟨ihlen, ihterm, ihfail⟩ := ih
    cases hbc with
    | select h t =>
      exact ⟨ihlen, by intro hh; simp at hh, by intro e hh; simp at hh⟩
    | actOk sp h t m hm =>
      refine ⟨?_, by intro hh; simp at hh, by intro e hh; simp at hh⟩
      simp only [List.length_append, List.length_cons, List.length_nil]
      simp only [List.length_cons] at ihlen ⊢
      omega
    | actErr sp h t e he =>
      refine ⟨ihlen, by intro hh; simp at hh, ?_⟩
      intro e2 hh
      simp only [Phase.failed.injEq] at hh
      exact ⟨sp, hh ▸ he⟩
    | checkStop h t hs =>
      exact ⟨ihlen, fun _ => hs, by intro e hh; simp at hh⟩
    | checkGo h t hs =>
      exact ⟨ihlen, by intro hh; simp at hh, by intro e hh; simp at hh⟩

/-- C6: invariants over every reachable state of the conversation loop: the
history always exceeds the completed-turn count by exactly the seed message
(so each turn appends exactly one message); every step either leaves history
and turn count unchanged or is the acting step of the single selected
speaker, appending exactly one message and incrementing the turn count by
one; `terminated` is reached only with the termination policy true; `failed`
only with a participant error on the current history; and from a terminal
state no further step is possible. -/
theorem c6_loop_invariant (sel : List Message → List Char)
    (act : List Char → List Message → Except (List Char) Message)
    (stop : List Message → Bool) (task : List Char) (s : LoopState)
    (hr : Reachable sel act stop task s) :
    s.history.length = s.turns + 1 ∧
    (s.phase = Phase.terminated → stop s.history = true) ∧
    (∀ e, s.phase = Phase.failed e → ∃ sp, act sp s.history = Except.error e) ∧
    (∀ s2, LoopStep sel act stop s s2 →
      (s2.history = s.history ∧ s2.turns = s.turns) ∨
      (∃ sp m, s.phase = Phase.acting sp ∧ act sp s.history = Except.ok m ∧
        s2.history = s.history ++ [m] ∧ s2.turns = s.turns + 1)) ∧
    ((s.phase = Phase.terminated ∨ ∃ e, s.phase = Phase.failed e) →
      ∀ s2, ¬ LoopStep sel act stop s s2) := by
  obtain ⟨h1, h2, h3⟩ := reachable_inv sel act stop task s hr
  exact ⟨h1, h2, h3, fun s2 hstep => step_one_turn sel act stop s s2 hstep,
    fun hterm s2 hstep => no_step_of_terminal sel act stop s s2 hterm hstep⟩

theorem c6_loop_invariant_witness :
    (initState "t".data).history.length = (initState "t".data).turns + 1 :=
  (c6_loop_invariant (fun _ => "w".data) (fun sp _ => Except.ok ⟨sp, "ok".data⟩)
    (fun _ => false) "t".data (initState "t".data) Relation.ReflTransGen.refl).1

/-- C7: if the participant selected on the first turn fails with a
backend-unreachable error, the loop reaches the `failed` terminal state
carrying that very error unchanged, with the history still exactly the single
seed message (length 1) and zero completed turns, and no further step (no
retry at the loop layer) is possible. -/
theorem c7_fail_first_turn (sel : List Message → List Char)
    (act : List Char → List Message → Except (List Char) Message)
    (stop : List Message → Bool) (task : List Char) (e : List Char)
    (he : act (sel [seedMsg task]) [seedMsg task] = Except.error e) :
    Reachable sel act stop task ⟨Phase.failed e, [seedMsg task], 0⟩ ∧
    ([seedMsg task] : List Message).length = 1 ∧
    (∀ s2, ¬ LoopStep sel act stop ⟨Phase.failed e, [seedMsg task], 0⟩ s2) := by
  refine ⟨?_, rfl, ?_⟩
  · have step1 : LoopStep sel act stop (initState task)
        ⟨Phase.acting (sel [seedMsg task]), [seedMsg task], 0⟩ :=
      LoopStep.select [seedMsg task] 0
    have step2 : LoopStep sel act stop
        ⟨Phase.acting (sel [seedMsg task]), [seedMsg task], 0⟩
        ⟨Phase.failed e, [seedMsg task], 0⟩ :=
      LoopStep.actErr (sel [seedMsg task]) [seedMsg task] 0 e he
    exact Relation.ReflTransGen.tail (Relation.ReflTransGen.single step1) step2
  · intro s2 hstep
    exact no_step_of_terminal sel act stop _ s2 (Or.inr ⟨e, rfl⟩) hstep

theorem c7_fail_first_turn_witness :
    Reachable (fun _ => "w".data)
        (fun _ _ => Except.error "backend unreachable".data) (fun _ => false)
        "t".data
        ⟨Phase.failed "backend unreachable".data, [seedMsg "t".data], 0⟩ ∧
    ([seedMsg "t".data] : List Message).length = 1 ∧
    (∀ s2, ¬ LoopStep (fun _ => "w".data)
        (fun _ _ => Except.error "backend unreachable".data) (fun _ => false)
        ⟨Phase.failed "backend unreachable".data, [seedMsg "t".data], 0⟩ s2) :=
  c7_fail_first_turn (fun _ => "w".data)
    (fun _ _ => Except.error "backend unreachable".data) (fun _ => false)
    "t".data "backend unreachable".data rfl

end MyAgent
